import Mathlib

/-
Verification of the bootstrap and dispatch logic of the oec entry point
(oec/__main__.py): address parsing, encoding validation, device
identification, keymap selection, session dispatch and the signal-driven
stop handler.  Strings are modelled as lists of characters; Python string
operations (rsplit, split, int, strip, startswith) are embedded as
executable Lean functions.
-/

namespace Oec

/-- Split a character list at the first occurrence of a separator
character, returning the parts before and after it, or none when the
separator does not occur.  This models the behaviour underlying the
Python s.split(sep, 1) call. -/
def splitOnFirst (c : Char) : List Char → Option (List Char × List Char)
  | [] => none
  | x :: xs =>
    if x = c then some ([], xs)
    else
      match splitOnFirst c xs with
      | none => none
      | some (a, b) => some (x :: a, b)

/-- Model of Python s.rsplit(c, 1): the part before the last occurrence
of c, and, when c occurs, the part after it. -/
def pyRsplitOnce (c : Char) (s : List Char) : List Char × Option (List Char) :=
  match splitOnFirst c s.reverse with
  | none => (s, none)
  | some (a, b) => (b.reverse, some a.reverse)

/-- Model of Python s.split(c, 1): when c occurs, the part before the
first occurrence together with the part after it; otherwise just s.
The second component corresponds to elements[-1] in the source. -/
def pySplitOnce (c : Char) (s : List Char) : Option (List Char) × List Char :=
  match splitOnFirst c s with
  | none => (none, s)
  | some (a, b) => (some a, b)

/-- Model of Python s.split(c) with no limit: splits at every occurrence
of c; the empty string yields a single empty piece, matching Python. -/
def splitAll (c : Char) : List Char → List (List Char)
  | [] => [[]]
  | x :: xs =>
    if x = c then [] :: splitAll c xs
    else
      match splitAll c xs with
      | [] => [[x]]
      | a :: rest => (x :: a) :: rest

/-- Accumulating scanner for a run of decimal digits possibly separated
by single underscores, as accepted by the Python int constructor after
an optional sign.  The flag records whether an underscore is currently
allowed (that is, whether the previous character was a digit). -/
def digitsUAux (acc : Nat) (prevDigit : Bool) : List Char → Option Nat
  | [] => if prevDigit then some acc else none
  | c :: cs =>
    if c.isDigit then digitsUAux (acc * 10 + (c.toNat - 48)) true cs
    else if c = '_' && prevDigit then digitsUAux acc false cs
    else none

/-- Run of decimal digits with optional single underscores between
digits; empty input, a leading or trailing underscore, and doubled
underscores are rejected, as in Python. -/
def digitsU (s : List Char) : Option Nat :=
  digitsUAux 0 false s

/-- Model of Python str.strip(): remove whitespace from both ends. -/
def pyStrip (s : List Char) : List Char :=
  ((s.dropWhile Char.isWhitespace).reverse.dropWhile Char.isWhitespace).reverse

/-- Model of the Python int constructor on a string: strip surrounding
whitespace, accept an optional sign, then a digit run with optional
underscores; anything else fails. -/
def pyInt (s : List Char) : Option Int :=
  match pyStrip s with
  | [] => none
  | x :: rest =>
    if x = '+' then (digitsU rest).map Int.ofNat
    else if x = '-' then (digitsU rest).map (fun n => -(n : Int))
    else (digitsU (x :: rest)).map Int.ofNat

/-- Model of Python s.startswith(p), with the candidate head given
first. -/
def pyStartsWith : List Char → List Char → Bool
  | [], _ => true
  | _ :: _, [] => false
  | p :: ps, x :: xs => p = x && pyStartsWith ps xs

/-- Numeric value of a digit string, most significant digit first. -/
def digitsVal (s : List Char) : Nat :=
  s.foldl (fun a c => a * 10 + (c.toNat - 48)) 0

/-- Deprecation notice emitted while reconciling the embedded host:port
value with the legacy standalone port argument. -/
inductive Notice
  | noNotice
  | legacyUsed
  | embeddedWins
deriving DecidableEq

/-- Result of parse_tn3270_host_args: resolved host, resolved port,
optional logical-unit name list (device_names), and which deprecation
notice, if any, was emitted. -/
structure HostTarget where
  host : List Char
  port : Int
  device_names : Option (List (List Char))
  notice : Notice
deriving DecidableEq

/-- Reconciliation of the embedded port with the legacy port argument,
including the default of 23, mirroring lines 97-114 of the source. -/
def resolvePort (embedded : Option Int) (legacy : Option Int) : Int × Notice :=
  match legacy with
  | none => (embedded.getD 23, Notice.noNotice)
  | some lp =>
    match embedded with
    | none => (lp, Notice.legacyUsed)
    | some p => (p, Notice.embeddedWins)

/-- Embedding of parse_tn3270_host_args: rsplit the input on the last
colon offering the second segment to the int constructor, report a
configuration error naming the offending token on failure, reconcile
with the legacy port and the default 23, then split the remainder on
the first at-sign into the optional comma-separated device-name list
and the host. -/
def parse_tn3270_host_args (hostArg : List Char) (argsPort : Option Int) :
    Except (List Char) HostTarget :=
  let (rest, portTok) := pyRsplitOnce ':' hostArg
  match portTok with
  | some tok =>
    match pyInt tok with
    | none => Except.error tok
    | some p =>
      let (port, notice) := resolvePort (some p) argsPort
      let (luPart, host) := pySplitOnce '@' rest
      Except.ok ⟨host, port, luPart.map (fun l => splitAll ',' l), notice⟩
  | none =>
    let (port, notice) := resolvePort none argsPort
    let (luPart, host) := pySplitOnce '@' rest
    Except.ok ⟨host, port, luPart.map (fun l => splitAll ',' l), notice⟩

/-- Join a list of pieces with a separator character between
consecutive pieces; used to build inputs of the address grammar. -/
def joinSep (sep : Char) : List (List Char) → List Char
  | [] => []
  | [x] => x
  | x :: y :: rest => x ++ sep :: joinSep sep (y :: rest)

/-- Named keymap tables selected by the keymap selector.  The table
contents are out of scope; only the identity of the selected table
matters here. -/
inductive Keymap
  | keymap3278Typewriter
  | keymapIbmTypewriter
  | keymapIbmEnhanced
deriving DecidableEq

/-- Keymap imported from keymap_3278_typewriter. -/
def KEYMAP_3278_TYPEWRITER : Keymap := Keymap.keymap3278Typewriter

/-- Keymap imported from keymap_ibm_typewriter. -/
def KEYMAP_IBM_TYPEWRITER : Keymap := Keymap.keymapIbmTypewriter

/-- Keymap imported from keymap_ibm_enhanced. -/
def KEYMAP_IBM_ENHANCED : Keymap := Keymap.keymapIbmEnhanced

/-- Embedding of _get_keymap: case-sensitive prefix dispatch over the
keyboard description, in source order, defaulting to the 3278
typewriter keymap. -/
def _get_keymap (keyboard_description : List Char) : Keymap :=
  if pyStartsWith ("3278").data keyboard_description then KEYMAP_3278_TYPEWRITER
  else if pyStartsWith ("IBM-TYPEWRITER").data keyboard_description then KEYMAP_IBM_TYPEWRITER
  else if pyStartsWith ("IBM-ENHANCED").data keyboard_description then KEYMAP_IBM_ENHANCED
  else KEYMAP_3278_TYPEWRITER

/-- Embedding of _get_character_encoding.  The Python codecs registry is
external library state, modelled as a boolean oracle saying whether
codecs.lookup succeeds for a name; on failure the embedding raises the
ArgumentTypeError naming the invalid encoding, on success it returns
the name unchanged. -/
def _get_character_encoding (lookupOk : List Char → Bool) (encoding : List Char) :
    Except (List Char) (List Char) :=
  if lookupOk encoding then Except.ok encoding
  else Except.error (("invalid encoding: ").data ++ encoding)

/-- Terminal type tag carried by a terminal identifier, from the coax
library; only CUT is supported by the program. -/
inductive TerminalType
  | CUT
  | DFT
deriving DecidableEq

/-- Terminal identifier read from the device; it carries the type tag
that _create_device dispatches on. -/
structure TerminalId where
  ttype : TerminalType
deriving DecidableEq

/-- Extended identifier bytes, optionally read from the device. -/
abbrev ExtendedId := List Nat

/-- Feature set reported by the device, abstract here. -/
abbrev Features := List Nat

/-- Oracle describing what the attached device answers to the two
queries issued by _create_device, together with the externally derived
keyboard description (get_keyboard_description lives in the device
module, an external collaborator). -/
structure Interface where
  ids : TerminalId × Option ExtendedId
  features : Features
  keyboardDescription : TerminalId → Option ExtendedId → List Char

/-- Device queries that _create_device can issue over the interface. -/
inductive Query
  | getIds
  | getFeatures
deriving DecidableEq

/-- Terminal aggregate constructed by _create_device. -/
structure Terminal where
  terminalId : TerminalId
  extendedId : Option ExtendedId
  features : Features
  keymap : Keymap
deriving DecidableEq

/-- Embedding of _create_device: query the identifiers, reject non-CUT
terminals with an unsupported-device error, otherwise derive the
keyboard description, query the features, select the keymap and build
the Terminal.  The second component records the queries issued, in
order. -/
def _create_device (iface : Interface) : Except (List Char) Terminal × List Query :=
  let (terminalId, extendedId) := iface.ids
  if terminalId.ttype ≠ TerminalType.CUT then
    (Except.error ("Only CUT type terminals are supported").data, [Query.getIds])
  else
    let keyboard_description := iface.keyboardDescription terminalId extendedId
    let features := iface.features
    let keymap := _get_keymap keyboard_description
    (Except.ok ⟨terminalId, extendedId, features, keymap⟩, [Query.getIds, Query.getFeatures])

/-- Parsed arguments consumed by _create_session. -/
structure Args where
  emulator : List Char
  host : List Char
  port : Int
  device_names : Option (List (List Char))
  character_encoding : List Char
  command : List Char
  command_args : List (List Char)

/-- Session constructed by _create_session: either a TN3270 session
from device, host, port, device names and encoding, or a VT100 session
from device and host command line. -/
inductive Session
  | tn3270 (device : Terminal) (host : List Char) (port : Int)
      (device_names : Option (List (List Char))) (character_encoding : List Char)
  | vt100 (device : Terminal) (host_command : List (List Char))
deriving DecidableEq

/-- Embedding of _create_session: dispatch on the emulator kind, with
the VT100 branch guarded by the platform availability flag, and an
unsupported-emulator error otherwise. -/
def _create_session (isVT100Available : Bool) (args : Args) (device : Terminal) :
    Except (List Char) Session :=
  if args.emulator = ("tn3270").data then
    Except.ok (Session.tn3270 device args.host args.port args.device_names
      args.character_encoding)
  else if args.emulator = ("vt100").data ∧ isVT100Available = true then
    Except.ok (Session.vt100 device (args.command :: args.command_args))
  else
    Except.error ("Unsupported emulator").data

/-- Controller instance, identified abstractly; its run and stop
internals are out of scope. -/
structure Controller where
  id : Nat
deriving DecidableEq

/-- Embedding of _signal_handler acting on the global CONTROLLER
reference: given the current reference it returns the new reference
and the list of controllers on which stop was invoked, in order.  A
held reference is stopped and cleared; an absent reference is left
alone with no stop call. -/
def _signal_handler (controller : Option Controller) : Option Controller × List Controller :=
  match controller with
  | some c => (none, [c])
  | none => (none, [])

/-- Interface oracle describing a non-CUT (DFT) terminal, used to
exercise the unsupported-device path on a concrete input. -/
def dftInterface : Interface :=
  ⟨(⟨TerminalType.DFT⟩, none), [], fun _ _ => []⟩

/-- Concrete CUT terminal aggregate used to exercise the session
factory on a concrete input. -/
def sampleTerminal : Terminal :=
  ⟨⟨TerminalType.CUT⟩, none, [], KEYMAP_3278_TYPEWRITER⟩

/-- Concrete parsed arguments selecting the TN3270 emulator, used to
exercise the session factory on a concrete input. -/
def sampleArgs : Args :=
  ⟨("tn3270").data, ("host").data, 23, none, ("ibm037").data, [], []⟩

/-- Codec registry oracle reflecting the spec examples: the EBCDIC
codepage ibm037 resolves, any other name used here does not. -/
def sampleCodecLookup (s : List Char) : Bool :=
  s == ("ibm037").data

/-- Splitting at a character that does not occur yields nothing. -/
theorem splitOnFirst_of_not_mem (c : Char) (s : List Char) (h : c ∉ s) :
    splitOnFirst c s = none := by
  induction s with
  | nil => rfl
  | cons x xs ih =>
    have hx : ¬ x = c := fun hx => h (hx ▸ List.mem_cons_self x xs)
    have hxs : c ∉ xs := fun hm => h (List.mem_cons_of_mem x hm)
    simp [splitOnFirst, hx, ih hxs]

/-- Splitting at the first occurrence of a character recovers the parts
around it when the character does not occur earlier. -/
theorem splitOnFirst_append (c : Char) (a b : List Char) (h : c ∉ a) :
    splitOnFirst c (a ++ c :: b) = some (a, b) := by
  induction a with
  | nil => simp [splitOnFirst]
  | cons x xs ih =>
    have hx : ¬ x = c := fun hx => h (hx ▸ List.mem_cons_self x xs)
    have hxs : c ∉ xs := fun hm => h (List.mem_cons_of_mem x hm)
    simp [splitOnFirst, hx, ih hxs]

/-- Splitting at a character that occurs somewhere succeeds. -/
theorem splitOnFirst_mem (c : Char) (s : List Char) (h : c ∈ s) :
    ∃ a b, splitOnFirst c s = some (a, b) := by
  induction s with
  | nil => cases h
  | cons x xs ih =>
    by_cases hx : x = c
    · exact ⟨[], xs, by simp [splitOnFirst, hx]⟩
    · have hmem : c ∈ xs := by
        rcases List.mem_cons.mp h with h1 | h1
        · exact absurd h1.symm hx
        · exact h1
      obtain ⟨a, b, hab⟩ := ih hmem
      exact ⟨x :: a, b, by simp [splitOnFirst, hx, hab]⟩

/-- Every character list containing c decomposes around the last
occurrence of c. -/
theorem exists_last_decomp (c : Char) (s : List Char) (h : c ∈ s) :
    ∃ a b, s = a ++ c :: b ∧ c ∉ b := by
  induction s with
  | nil => cases h
  | cons x xs ih =>
    by_cases hm : c ∈ xs
    · obtain ⟨a, b, hab, hb⟩ := ih hm
      exact ⟨x :: a, b, by rw [hab]; rfl, hb⟩
    · have hx : x = c := by
        rcases List.mem_cons.mp h with h1 | h1
        · exact h1.symm
        · exact absurd h1 hm
      exact ⟨[], xs, by rw [hx]; rfl, hm⟩

/-- rsplit of a string without the separator keeps it whole. -/
theorem pyRsplitOnce_of_not_mem (c : Char) (s : List Char) (h : c ∉ s) :
    pyRsplitOnce c s = (s, none) := by
  have hrev : c ∉ s.reverse := by simpa using h
  simp [pyRsplitOnce, splitOnFirst_of_not_mem c s.reverse hrev]

/-- rsplit separates at the last occurrence of the separator. -/
theorem pyRsplitOnce_append (c : Char) (a b : List Char) (h : c ∉ b) :
    pyRsplitOnce c (a ++ c :: b) = (a, some b) := by
  have hrev : (a ++ c :: b).reverse = b.reverse ++ c :: a.reverse := by
    simp [List.reverse_append]
  have hb : c ∉ b.reverse := by simpa using h
  simp [pyRsplitOnce, hrev, splitOnFirst_append c b.reverse a.reverse hb]

/-- Unlimited split of a string without the separator is the singleton
list. -/
theorem splitAll_of_not_mem (c : Char) (s : List Char) (h : c ∉ s) :
    splitAll c s = [s] := by
  induction s with
  | nil => rfl
  | cons x xs ih =>
    have hx : ¬ x = c := fun hx => h (hx ▸ List.mem_cons_self x xs)
    have hxs : c ∉ xs := fun hm => h (List.mem_cons_of_mem x hm)
    simp [splitAll, hx, ih hxs]

/-- Unlimited split peels off a separator-free piece before a
separator. -/
theorem splitAll_append_sep (c : Char) (a t : List Char) (h : c ∉ a) :
    splitAll c (a ++ c :: t) = a :: splitAll c t := by
  induction a with
  | nil => simp [splitAll]
  | cons x xs ih =>
    have hx : ¬ x = c := fun hx => h (hx ▸ List.mem_cons_self x xs)
    have hxs : c ∉ xs := fun hm => h (List.mem_cons_of_mem x hm)
    simp [splitAll, hx, ih hxs]

/-- Unlimited split is a left inverse of joining with the separator,
for nonempty piece lists whose pieces avoid the separator. -/
theorem splitAll_joinSep (sep : Char) (ps : List (List Char)) (hne : ps ≠ [])
    (h : ∀ p ∈ ps, sep ∉ p) :
    splitAll sep (joinSep sep ps) = ps := by
  induction ps with
  | nil => cases hne rfl
  | cons x xs ih =>
    cases xs with
    | nil => simp [joinSep, splitAll_of_not_mem sep x (h x (List.mem_cons_self x []))]
    | cons y ys =>
      have hx : sep ∉ x := h x (List.mem_cons_self x (y :: ys))
      have hrest : ∀ p ∈ y :: ys, sep ∉ p := fun p hp => h p (List.mem_cons_of_mem x hp)
      simp [joinSep, splitAll_append_sep sep x (joinSep sep (y :: ys)) hx,
        ih (by simp) hrest]

/-- A character different from the separator and absent from every
piece is absent from the join. -/
theorem not_mem_joinSep (sep c : Char) (ps : List (List Char))
    (hc : c ≠ sep) (h : ∀ p ∈ ps, c ∉ p) : c ∉ joinSep sep ps := by
  induction ps with
  | nil => simp [joinSep]
  | cons x xs ih =>
    cases xs with
    | nil =>
      simp only [joinSep]
      exact h x (List.mem_cons_self x [])
    | cons y ys =>
      intro hm
      simp only [joinSep] at hm
      rcases List.mem_append.mp hm with h1 | h1
      · exact h x (List.mem_cons_self x (y :: ys)) h1
      · rcases List.mem_cons.mp h1 with h2 | h2
        · exact hc h2
        · exact ih (fun p hp => h p (List.mem_cons_of_mem x hp)) h2

/-- A decimal digit is not a whitespace character. -/
theorem not_whitespace_of_digit (c : Char) (h : c.isDigit = true) :
    c.isWhitespace = false := by
  by_contra hw
  rw [Bool.not_eq_false] at hw
  simp only [Char.isWhitespace] at hw
  rcases Bool.or_eq_true_iff.mp hw with h1 | h1
  · rcases Bool.or_eq_true_iff.mp h1 with h2 | h2
    · rcases Bool.or_eq_true_iff.mp h2 with h3 | h3
      · have : c = ' ' := of_decide_eq_true h3
        subst this; exact absurd h (by decide)
      · have : c = '\t' := of_decide_eq_true h3
        subst this; exact absurd h (by decide)
    · have : c = '\x0d' := of_decide_eq_true h2
      subst this; exact absurd h (by decide)
  · have : c = '\n' := of_decide_eq_true h1
    subst this; exact absurd h (by decide)

/-- The digit scanner in the after-digit state consumes a pure digit
run and folds up its value. -/
theorem digitsUAux_true_digits (s : List Char) (hs : ∀ ch ∈ s, ch.isDigit = true)
    (acc : Nat) :
    digitsUAux acc true s
      = some (s.foldl (fun a ch => a * 10 + (ch.toNat - 48)) acc) := by
  induction s generalizing acc with
  | nil => rfl
  | cons x xs ih =>
    have hx := hs x (List.mem_cons_self x xs)
    simp [digitsUAux, hx, ih (fun ch hm => hs ch (List.mem_cons_of_mem x hm))]

/-- A nonempty pure digit run scans to its decimal value. -/
theorem digitsU_digits (s : List Char) (hne : s ≠ []) (hs : ∀ ch ∈ s, ch.isDigit = true) :
    digitsU s = some (digitsVal s) := by
  cases s with
  | nil => cases hne rfl
  | cons x xs =>
    have hx := hs x (List.mem_cons_self x xs)
    have hxs : ∀ ch ∈ xs, ch.isDigit = true := fun ch hm => hs ch (List.mem_cons_of_mem x hm)
    simp [digitsU, digitsUAux, hx, digitsUAux_true_digits xs hxs, digitsVal]

/-- A character that is neither a digit nor an underscore poisons the
digit scanner in every state. -/
theorem digitsUAux_none_of_bad (c : Char) (s : List Char) (hm : c ∈ s)
    (hd : c.isDigit = false) (hu : c ≠ '_') :
    ∀ acc prev, digitsUAux acc prev s = none := by
  induction s with
  | nil => cases hm
  | cons x xs ih =>
    intro acc prev
    rcases List.mem_cons.mp hm with h1 | h1
    · subst h1
      simp [digitsUAux, hd, hu]
    · by_cases hx : x.isDigit
      · simp [digitsUAux, hx, ih h1]
      · by_cases hxu : (x = '_' && prev) = true
        · simp [digitsUAux, hx, hxu, ih h1]
        · simp [digitsUAux, hx, hxu]

/-- dropWhile is the identity when no element satisfies the
predicate. -/
theorem dropWhile_eq_self_of_all (p : Char → Bool) (s : List Char)
    (h : ∀ x ∈ s, p x = false) : s.dropWhile p = s := by
  cases s with
  | nil => rfl
  | cons x xs => simp [List.dropWhile_cons, h x (List.mem_cons_self x xs)]

/-- Stripping is the identity on whitespace-free strings. -/
theorem pyStrip_eq_self (s : List Char) (h : ∀ x ∈ s, x.isWhitespace = false) :
    pyStrip s = s := by
  have h1 : s.dropWhile Char.isWhitespace = s := dropWhile_eq_self_of_all _ s h
  have h2 : s.reverse.dropWhile Char.isWhitespace = s.reverse :=
    dropWhile_eq_self_of_all _ s.reverse (fun x hx => h x (List.mem_reverse.mp hx))
  simp [pyStrip, h1, h2]

/-- A member failing the predicate survives dropWhile. -/
theorem mem_dropWhile_of_mem (p : Char → Bool) (c : Char) (s : List Char)
    (hm : c ∈ s) (hc : p c = false) : c ∈ s.dropWhile p := by
  induction s with
  | nil => cases hm
  | cons x xs ih =>
    by_cases hx : p x
    · rw [List.dropWhile_cons, if_pos hx]
      rcases List.mem_cons.mp hm with h1 | h1
      · subst h1; rw [hx] at hc; cases hc
      · exact ih h1
    · rw [List.dropWhile_cons, if_neg hx]
      exact hm

/-- A non-whitespace member survives stripping. -/
theorem mem_pyStrip (c : Char) (s : List Char) (hm : c ∈ s)
    (hc : c.isWhitespace = false) : c ∈ pyStrip s := by
  unfold pyStrip
  rw [List.mem_reverse]
  exact mem_dropWhile_of_mem _ c _
    (List.mem_reverse.mpr (mem_dropWhile_of_mem _ c s hm hc)) hc

/-- Python int accepts a nonempty pure digit string and returns its
decimal value. -/
theorem pyInt_digits (s : List Char) (hne : s ≠ []) (hs : ∀ ch ∈ s, ch.isDigit = true) :
    pyInt s = some (Int.ofNat (digitsVal s)) := by
  have hstrip : pyStrip s = s :=
    pyStrip_eq_self s (fun x hx => not_whitespace_of_digit x (hs x hx))
  cases s with
  | nil => cases hne rfl
  | cons x xs =>
    have hx := hs x (List.mem_cons_self x xs)
    have hxp : ¬ x = '+' := fun h => by subst h; exact absurd hx (by decide)
    have hxm : ¬ x = '-' := fun h => by subst h; exact absurd hx (by decide)
    unfold pyInt
    rw [hstrip]
    simp [hxp, hxm, digitsU_digits (x :: xs) hne hs]

/-- Python int rejects any string containing a character that is not a
digit, underscore, sign, or whitespace. -/
theorem pyInt_none_of_bad (c : Char) (s : List Char) (hm : c ∈ s)
    (hd : c.isDigit = false) (hu : c ≠ '_') (hp : c ≠ '+') (hmn : c ≠ '-')
    (hw : c.isWhitespace = false) :
    pyInt s = none := by
  have hms : c ∈ pyStrip s := mem_pyStrip c s hm hw
  unfold pyInt
  cases hps : pyStrip s with
  | nil => rfl
  | cons x rest =>
    rw [hps] at hms
    by_cases hxp : x = '+'
    · have hcr : c ∈ rest := by
        rcases List.mem_cons.mp hms with h1 | h1
        · subst hxp; exact absurd h1 hp
        · exact h1
      simp [hxp, digitsU, digitsUAux_none_of_bad c rest hcr hd hu]
    · by_cases hxm : x = '-'
      · have hcr : c ∈ rest := by
          rcases List.mem_cons.mp hms with h1 | h1
          · subst hxm; exact absurd h1 hmn
          · exact h1
        simp [hxp, hxm, digitsU, digitsUAux_none_of_bad c rest hcr hd hu]
      · simp [hxp, hxm, digitsU, digitsUAux_none_of_bad c (x :: rest) hms hd hu]

/-- A string with a given head decomposes as that head followed by a
tail. -/
theorem pyStartsWith_decomp (p s : List Char) (h : pyStartsWith p s = true) :
    ∃ t, s = p ++ t := by
  induction p generalizing s with
  | nil => exact ⟨s, rfl⟩
  | cons c cs ih =>
    cases s with
    | nil => simp [pyStartsWith] at h
    | cons x xs =>
      simp only [pyStartsWith, Bool.and_eq_true, decide_eq_true_eq] at h
      obtain ⟨h1, h2⟩ := h
      obtain ⟨t, ht⟩ := ih xs h2
      exact ⟨t, by rw [← h1, ht]; rfl⟩

/-- Every string starts with itself. -/
theorem pyStartsWith_append_self (p t : List Char) : pyStartsWith p (p ++ t) = true := by
  induction p with
  | nil => rfl
  | cons c cs ih => simp [pyStartsWith, ih]

/-- Evaluation of the address parsing on an input whose last colon is
followed by a token the int constructor accepts. -/
theorem parse_embedded_general (pre tok : List Char) (p : Int) (lp : Option Int)
    (htok : ':' ∉ tok) (hint : pyInt tok = some p) :
    parse_tn3270_host_args (pre ++ ':' :: tok) lp
      = Except.ok ⟨(pySplitOnce '@' pre).2, (resolvePort (some p) lp).1,
          ((pySplitOnce '@' pre).1).map (fun l => splitAll ',' l),
          (resolvePort (some p) lp).2⟩ := by
  unfold parse_tn3270_host_args
  rw [pyRsplitOnce_append ':' pre tok htok]
  rcases hrp : resolvePort (some p) lp with ⟨port, notice⟩
  rcases hsp : pySplitOnce '@' pre with ⟨lu, h⟩
  simp [hint, hrp, hsp]

/-- Evaluation of the address parsing on an input without a colon. -/
theorem parse_no_colon_general (s : List Char) (lp : Option Int) (hs : ':' ∉ s) :
    parse_tn3270_host_args s lp
      = Except.ok ⟨(pySplitOnce '@' s).2, (resolvePort none lp).1,
          ((pySplitOnce '@' s).1).map (fun l => splitAll ',' l),
          (resolvePort none lp).2⟩ := by
  unfold parse_tn3270_host_args
  rw [pyRsplitOnce_of_not_mem ':' s hs]

/-- C1: for every terminal whose queried identifier has a type other
than CUT, _create_device raises the unsupported-device error without
querying the features; a Terminal is constructed only for CUT-type
identifiers, and for CUT-type identifiers the full aggregate is built
after both queries. -/
theorem claim_C1_device_identifier (iface : Interface) :
    (iface.ids.1.ttype ≠ TerminalType.CUT →
      _create_device iface
        = (Except.error (("Only CUT type terminals are supported").data), [Query.getIds])
      ∧ Query.getFeatures ∉ (_create_device iface).2)
    ∧ (∀ t, (_create_device iface).1 = Except.ok t → iface.ids.1.ttype = TerminalType.CUT)
    ∧ (iface.ids.1.ttype = TerminalType.CUT →
      _create_device iface
        = (Except.ok ⟨iface.ids.1, iface.ids.2, iface.features,
            _get_keymap (iface.keyboardDescription iface.ids.1 iface.ids.2)⟩,
           [Query.getIds, Query.getFeatures])) := by
  obtain ⟨⟨tid, eid⟩, feats, kdf⟩ := iface
  by_cases h : tid.ttype = TerminalType.CUT
  · refine ⟨fun hne => absurd h hne, fun t _ => h, fun _ => ?_⟩
    simp [_create_device, h]
  · refine ⟨fun _ => ?_, fun t ht => ?_, fun hc => absurd hc h⟩
    · constructor
      · simp [_create_device, h]
      · simp [_create_device, h]
    · simp [_create_device, h] at ht

/-- Witness for C1 at a concrete DFT-type identifier. -/
theorem claim_C1_witness :
    dftInterface.ids.1.ttype ≠ TerminalType.CUT
    ∧ (_create_device dftInterface
        = (Except.error (("Only CUT type terminals are supported").data), [Query.getIds])
      ∧ Query.getFeatures ∉ (_create_device dftInterface).2) :=
  ⟨by decide, (claim_C1_device_identifier dftInterface).1 (by decide)⟩

/-- C2: for inputs of the grammar lu[,lu...]@host:port the address
parsing splits on the last colon to obtain the port, splits the
remainder on the first at-sign with the right side as host and the
comma-separated left side as the ordered LU list; in particular
lu1,lu2@host:9999 gives host, 9999 and the two LUs, and an unparsable
port token yields a configuration error naming that token. -/
theorem claim_C2_address_grammar
    (lus : List (List Char)) (host portStr : List Char)
    (hlus : lus ≠ [])
    (hlu : ∀ lu ∈ lus, ∀ ch ∈ lu, ch ≠ ',' ∧ ch ≠ '@')
    (hpne : portStr ≠ []) (hpd : ∀ ch ∈ portStr, ch.isDigit = true) :
    parse_tn3270_host_args (joinSep ',' lus ++ '@' :: host ++ ':' :: portStr) none
      = Except.ok ⟨host, Int.ofNat (digitsVal portStr), some lus, Notice.noNotice⟩
    ∧ parse_tn3270_host_args (("lu1,lu2@host:9999").data) none
      = Except.ok ⟨("host").data, 9999, some [("lu1").data, ("lu2").data], Notice.noNotice⟩
    ∧ (∀ pre tok, ':' ∉ tok → pyInt tok = none →
        parse_tn3270_host_args (pre ++ ':' :: tok) none = Except.error tok) := by
  refine ⟨?_, by rfl, ?_⟩
  · have hcp : ':' ∉ portStr := fun hm => absurd (hpd ':' hm) (by decide)
    have hassoc : joinSep ',' lus ++ '@' :: host ++ ':' :: portStr
        = (joinSep ',' lus ++ '@' :: host) ++ ':' :: portStr := by
      simp [List.append_assoc]
    have hsplit : pyRsplitOnce ':' ((joinSep ',' lus ++ '@' :: host) ++ ':' :: portStr)
        = (joinSep ',' lus ++ '@' :: host, some portStr) :=
      pyRsplitOnce_append ':' _ portStr hcp
    have hjoin : '@' ∉ joinSep ',' lus :=
      not_mem_joinSep ',' '@' lus (by decide) (fun p hp hm => ((hlu p hp) '@' hm).2 rfl)
    have hat : splitOnFirst '@' (joinSep ',' lus ++ '@' :: host)
        = some (joinSep ',' lus, host) :=
      splitOnFirst_append '@' _ host hjoin
    have hsa : splitAll ',' (joinSep ',' lus) = lus :=
      splitAll_joinSep ',' lus hlus (fun p hp hm => ((hlu p hp) ',' hm).1 rfl)
    have hpi : pyInt portStr = some (Int.ofNat (digitsVal portStr)) :=
      pyInt_digits portStr hpne hpd
    rw [hassoc]
    unfold parse_tn3270_host_args
    rw [hsplit]
    simp [hpi, resolvePort, pySplitOnce, hat, hsa]
  · intro pre tok hct hpn
    unfold parse_tn3270_host_args
    rw [pyRsplitOnce_append ':' pre tok hct]
    simp [hpn]

/-- Witness for C2 at the concrete input lu@h:7. -/
theorem claim_C2_witness :
    ([("lu").data] ≠ ([] : List (List Char)))
    ∧ parse_tn3270_host_args
        (joinSep ',' [("lu").data] ++ '@' :: ("h").data ++ ':' :: ("7").data) none
      = Except.ok ⟨("h").data, Int.ofNat (digitsVal (("7").data)), some [("lu").data],
          Notice.noNotice⟩ :=
  ⟨by decide,
    (claim_C2_address_grammar [("lu").data] (("h").data) (("7").data)
      (by decide) (by decide) (by decide) (by decide)).1⟩

/-- C3: when both an embedded host:port value and a legacy port are
supplied the embedded value wins with the embedded-wins deprecation
notice; when only the legacy port is supplied it is used with the
other deprecation notice; concretely host:12 with legacy 34 resolves
to 12 and host with legacy 34 resolves to 34. -/
theorem claim_C3_port_precedence
    (pre tok s : List Char) (p lp : Int)
    (htok : ':' ∉ tok) (hint : pyInt tok = some p) (hs : ':' ∉ s) :
    (parse_tn3270_host_args (pre ++ ':' :: tok) (some lp)).map HostTarget.port = Except.ok p
    ∧ (parse_tn3270_host_args (pre ++ ':' :: tok) (some lp)).map HostTarget.notice
        = Except.ok Notice.embeddedWins
    ∧ (parse_tn3270_host_args s (some lp)).map HostTarget.port = Except.ok lp
    ∧ (parse_tn3270_host_args s (some lp)).map HostTarget.notice = Except.ok Notice.legacyUsed
    ∧ (parse_tn3270_host_args (("host:12").data) (some 34)).map HostTarget.port = Except.ok 12
    ∧ (parse_tn3270_host_args (("host").data) (some 34)).map HostTarget.port
        = Except.ok 34 := by
  have h1 := parse_embedded_general pre tok p (some lp) htok hint
  have h2 := parse_no_colon_general s (some lp) hs
  refine ⟨?_, ?_, ?_, ?_, by rfl, by rfl⟩
  · rw [h1]; rfl
  · rw [h1]; rfl
  · rw [h2]; rfl
  · rw [h2]; rfl

/-- Witness for C3 at the concrete input h:5 with legacy port 9. -/
theorem claim_C3_witness :
    pyInt (("5").data) = some 5
    ∧ (parse_tn3270_host_args (("h").data ++ ':' :: ("5").data) (some 9)).map HostTarget.port
        = Except.ok 5 :=
  ⟨by decide,
    (claim_C3_port_precedence (("h").data) (("5").data) (("h").data) 5 9
      (by decide) (by decide) (by decide)).1⟩

/-- C4: the signal handler stops and clears a held controller
reference, is a no-op when none is held, performs at most one stop
invocation over two successive calls, and the reference never
transitions back from cleared to set. -/
theorem claim_C4_signal_handler (s : Option Controller) :
    (s = none → _signal_handler s = (none, []))
    ∧ (∀ c, s = some c → _signal_handler s = (none, [c]))
    ∧ (_signal_handler s).2.length + (_signal_handler (_signal_handler s).1).2.length ≤ 1
    ∧ (_signal_handler s).1 = none := by
  cases s <;> simp [_signal_handler]

/-- Witness for C4 at a concrete held controller. -/
theorem claim_C4_witness :
    (some (Controller.mk 0) = some (Controller.mk 0))
    ∧ _signal_handler (some (Controller.mk 0)) = (none, [Controller.mk 0]) :=
  ⟨rfl, (claim_C4_signal_handler (some (Controller.mk 0))).2.1 (Controller.mk 0) rfl⟩

/-- C5: the session factory builds a TN3270 session from device, host,
port, LU list and encoding for the tn3270 kind, builds a VT100 session
only when the platform flag allows it, and otherwise raises the
unsupported-emulator error without constructing any session. -/
theorem claim_C5_session_factory (flag : Bool) (args : Args) (device : Terminal) :
    (args.emulator = ("tn3270").data →
      _create_session flag args device
        = Except.ok (Session.tn3270 device args.host args.port args.device_names
            args.character_encoding))
    ∧ (args.emulator = ("vt100").data → flag = true →
      _create_session flag args device
        = Except.ok (Session.vt100 device (args.command :: args.command_args)))
    ∧ (args.emulator ≠ ("tn3270").data →
       (args.emulator ≠ ("vt100").data ∨ flag = false) →
      _create_session flag args device = Except.error (("Unsupported emulator").data)) := by
  refine ⟨?_, ?_, ?_⟩
  · intro h
    simp [_create_session, h]
  · intro h hf
    have hne : ("vt100").data ≠ ("tn3270").data := by decide
    simp [_create_session, h, hf, hne]
  · intro h1 h2
    rcases h2 with h2 | h2
    · simp [_create_session, h1, h2]
    · simp [_create_session, h1, h2]

/-- Witness for C5 at concrete TN3270 arguments. -/
theorem claim_C5_witness :
    sampleArgs.emulator = ("tn3270").data
    ∧ _create_session true sampleArgs sampleTerminal
        = Except.ok (Session.tn3270 sampleTerminal sampleArgs.host sampleArgs.port
            sampleArgs.device_names sampleArgs.character_encoding) :=
  ⟨rfl, (claim_C5_session_factory true sampleArgs sampleTerminal).1 rfl⟩

/-- C6: the keymap selector is a pure total function: descriptions
starting with 3278 select the 3278 typewriter keymap, descriptions
starting with IBM-TYPEWRITER select the IBM typewriter keymap,
descriptions starting with IBM-ENHANCED select the IBM enhanced
keymap, and every other string selects the 3278 typewriter keymap as
default. -/
theorem claim_C6_keymap_selector (s : List Char) :
    (pyStartsWith (("3278").data) s = true → _get_keymap s = KEYMAP_3278_TYPEWRITER)
    ∧ (pyStartsWith (("IBM-TYPEWRITER").data) s = true → _get_keymap s = KEYMAP_IBM_TYPEWRITER)
    ∧ (pyStartsWith (("IBM-ENHANCED").data) s = true → _get_keymap s = KEYMAP_IBM_ENHANCED)
    ∧ (pyStartsWith (("3278").data) s = false →
       pyStartsWith (("IBM-TYPEWRITER").data) s = false →
       pyStartsWith (("IBM-ENHANCED").data) s = false →
       _get_keymap s = KEYMAP_3278_TYPEWRITER) := by
  refine ⟨?_, ?_, ?_, ?_⟩
  · intro h
    simp [_get_keymap, h]
  · intro h
    obtain ⟨t, rfl⟩ := pyStartsWith_decomp _ _ h
    have h1 : pyStartsWith (("3278").data) ((("IBM-TYPEWRITER").data) ++ t) = false := rfl
    have h2 : pyStartsWith (("IBM-TYPEWRITER").data) ((("IBM-TYPEWRITER").data) ++ t) = true :=
      pyStartsWith_append_self _ _
    simp only [_get_keymap]
    rw [h1, h2]
    simp
  · intro h
    obtain ⟨t, rfl⟩ := pyStartsWith_decomp _ _ h
    have h1 : pyStartsWith (("3278").data) ((("IBM-ENHANCED").data) ++ t) = false := rfl
    have h2 : pyStartsWith (("IBM-TYPEWRITER").data) ((("IBM-ENHANCED").data) ++ t) = false := rfl
    have h3 : pyStartsWith (("IBM-ENHANCED").data) ((("IBM-ENHANCED").data) ++ t) = true :=
      pyStartsWith_append_self _ _
    simp only [_get_keymap]
    rw [h1, h2, h3]
    simp
  · intro h1 h2 h3
    simp [_get_keymap, h1, h2, h3]

/-- Witness for C6 at a concrete IBM-ENHANCED description. -/
theorem claim_C6_witness :
    pyStartsWith (("IBM-ENHANCED").data) (("IBM-ENHANCED-KEYBOARD").data) = true
    ∧ _get_keymap (("IBM-ENHANCED-KEYBOARD").data) = KEYMAP_IBM_ENHANCED :=
  ⟨by decide, (claim_C6_keymap_selector (("IBM-ENHANCED-KEYBOARD").data)).2.2.1 (by decide)⟩

/-- C7: the encoding validation returns its input unchanged whenever
the codec lookup succeeds, raises a configuration error naming the
invalid encoding whenever it fails, and an accepted name re-validates
to itself. -/
theorem claim_C7_encoding_validator (lookupOk : List Char → Bool) (enc : List Char) :
    (lookupOk enc = true → _get_character_encoding lookupOk enc = Except.ok enc)
    ∧ (lookupOk enc = false →
      _get_character_encoding lookupOk enc
        = Except.error ((("invalid encoding: ").data) ++ enc))
    ∧ (∀ e, _get_character_encoding lookupOk enc = Except.ok e →
      e = enc ∧ _get_character_encoding lookupOk e = Except.ok e) := by
  by_cases h : lookupOk enc = true
  · refine ⟨fun _ => ?_, fun hf => ?_, fun e he => ?_⟩
    · simp [_get_character_encoding, h]
    · rw [h] at hf
      cases hf
    · simp [_get_character_encoding, h] at he
      subst he
      exact ⟨rfl, by simp [_get_character_encoding, h]⟩
  · rw [Bool.not_eq_true] at h
    refine ⟨fun ht => ?_, fun _ => ?_, fun e he => ?_⟩
    · rw [h] at ht
      cases ht
    · simp [_get_character_encoding, h]
    · simp [_get_character_encoding, h] at he

/-- Witness for C7: ibm037 is accepted unchanged and
not-a-real-encoding is rejected with the configuration error. -/
theorem claim_C7_witness :
    (sampleCodecLookup (("ibm037").data) = true
      ∧ _get_character_encoding sampleCodecLookup (("ibm037").data)
          = Except.ok (("ibm037").data))
    ∧ (sampleCodecLookup (("not-a-real-encoding").data) = false
      ∧ _get_character_encoding sampleCodecLookup (("not-a-real-encoding").data)
          = Except.error ((("invalid encoding: ").data) ++ ("not-a-real-encoding").data)) :=
  ⟨⟨by decide,
      (claim_C7_encoding_validator sampleCodecLookup (("ibm037").data)).1 (by decide)⟩,
    ⟨by decide,
      (claim_C7_encoding_validator sampleCodecLookup (("not-a-real-encoding").data)).2.1
        (by decide)⟩⟩

/-- C8 as stated is false: lu@host contains no colon and no legacy
port is supplied, the resolved port is 23, yet the LU list is present,
not absent. -/
theorem claim_C8_counterexample :
    parse_tn3270_host_args (("lu@host").data) none
      = Except.ok ⟨("host").data, 23, some [("lu").data], Notice.noNotice⟩
    ∧ some [("lu").data] ≠ (none : Option (List (List Char))) :=
  ⟨by rfl, by simp⟩

/-- C8 amended: for every host string containing no colon and no
at-sign, with no legacy port supplied, the resolved port is 23 and the
LU list is absent. -/
theorem claim_C8_amended (s : List Char) (hc : ':' ∉ s) (ha : '@' ∉ s) :
    parse_tn3270_host_args s none = Except.ok ⟨s, 23, none, Notice.noNotice⟩ := by
  have hcomp := parse_no_colon_general s none hc
  rw [hcomp]
  simp [pySplitOnce, splitOnFirst_of_not_mem '@' s ha, resolvePort]

/-- Witness for the amended C8 at the concrete input host. -/
theorem claim_C8_witness :
    (':' ∉ ("host").data ∧ '@' ∉ ("host").data)
    ∧ parse_tn3270_host_args (("host").data) none
        = Except.ok ⟨("host").data, 23, none, Notice.noNotice⟩ :=
  ⟨by decide, claim_C8_amended (("host").data) (by decide) (by decide)⟩

/-- C10: whenever the input contains an at-sign and the parsing
returns a result, the LU list of that result is present, and the input
at-host yields host with the one-element LU list containing the empty
string. -/
theorem claim_C10_at_sign_lu_list (s : List Char) (lp : Option Int) (r : HostTarget)
    (hm : '@' ∈ s) (hok : parse_tn3270_host_args s lp = Except.ok r) :
    r.device_names ≠ none
    ∧ parse_tn3270_host_args (("@host").data) none
        = Except.ok ⟨("host").data, 23, some [[]], Notice.noNotice⟩ := by
  refine ⟨?_, by rfl⟩
  by_cases hc : ':' ∈ s
  · obtain ⟨a, b, rfl, hb⟩ := exists_last_decomp ':' s hc
    cases hpi : pyInt b with
    | none =>
      have herr : parse_tn3270_host_args (a ++ ':' :: b) lp = Except.error b := by
        unfold parse_tn3270_host_args
        rw [pyRsplitOnce_append ':' a b hb]
        simp [hpi]
      rw [herr] at hok
      cases hok
    | some p =>
      have ha : '@' ∈ a := by
        rcases List.mem_append.mp hm with h1 | h1
        · exact h1
        · rcases List.mem_cons.mp h1 with h2 | h2
          · exact absurd h2 (by decide)
          · have hzero := pyInt_none_of_bad '@' b h2 (by decide) (by decide)
              (by decide) (by decide) (by decide)
            rw [hzero] at hpi
            cases hpi
      obtain ⟨x, y, hxy⟩ := splitOnFirst_mem '@' a ha
      have hcomp := parse_embedded_general a b p lp hb hpi
      rw [hcomp] at hok
      have hr : r = ⟨(pySplitOnce '@' a).2, (resolvePort (some p) lp).1,
          ((pySplitOnce '@' a).1).map (fun l => splitAll ',' l),
          (resolvePort (some p) lp).2⟩ := by
        injection hok with h'
        exact h'.symm
      rw [hr]
      simp [pySplitOnce, hxy]
  · obtain ⟨x, y, hxy⟩ := splitOnFirst_mem '@' s hm
    have hcomp := parse_no_colon_general s lp hc
    rw [hcomp] at hok
    have hr : r = ⟨(pySplitOnce '@' s).2, (resolvePort none lp).1,
        ((pySplitOnce '@' s).1).map (fun l => splitAll ',' l),
        (resolvePort none lp).2⟩ := by
      injection hok with h'
      exact h'.symm
    rw [hr]
    simp [pySplitOnce, hxy]

/-- Witness for C10 at the concrete input a@b. -/
theorem claim_C10_witness :
    ('@' ∈ ("a@b").data
      ∧ parse_tn3270_host_args (("a@b").data) none
          = Except.ok ⟨("b").data, 23, some [("a").data], Notice.noNotice⟩)
    ∧ (⟨("b").data, 23, some [("a").data], Notice.noNotice⟩ : HostTarget).device_names
        ≠ none :=
  ⟨⟨by decide, rfl⟩,
    (claim_C10_at_sign_lu_list (("a@b").data) none
      ⟨("b").data, 23, some [("a").data], Notice.noNotice⟩ (by decide) rfl).1⟩

end Oec
